import Mathlib

/-!
# Verification of the Email-Automation campaign scheduler

A shallow embedding of the campaign send scheduler, inbox-rotation engine,
retry controller, personalization engine and tracking endpoints of the
Email-Automation backend (files `backend/server.py` and
`backend/email_service.py`), together with theorems settling the frozen
claims about that code.

Conventions of the embedding:
* Mongo documents become Lean structures; only the fields the embedded
  functions read or write are modelled.
* Timestamps are seconds since the epoch (`Nat`); the code stores ISO-8601
  UTC strings whose lexicographic order agrees with numeric order.
* Status enums are modelled as their string values.
* `update_one` is modelled by `updateFirst` (it updates at most one document).
* Python `uuid4` id generation is modelled by an injected id source.
* The Python `random` module is modelled by an explicit generator state `G`
  with a seeding function and a `randint` function, both injected, mirroring
  `random.seed` / `random.randint` on the module-global generator.
-/

namespace EmailAutomation

/-! ## Data model -/

/-- A contact document, with the profile fields the embedded code reads.
A field absent from the Mongo document reads as the empty string via
`dict.get(key, "")`, so fields are plain strings here. -/
structure ContactD where
  id : String := ""
  first_name : String := ""
  last_name : String := ""
  email : String := ""
  company : String := ""
  phone : String := ""
deriving Repr, DecidableEq

/-- One A/B variation of a campaign step (server model `CampaignVariation`). -/
structure CampaignVariationM where
  id : String := ""
  name : String := ""
  subject : String := ""
  content : String := ""
  weight : Nat := 50
deriving Repr, DecidableEq

/-- One step of a multi-step campaign (server model `CampaignStep`). -/
structure CampaignStepM where
  id : String := ""
  sequence_order : Nat := 1
  delay_days : Nat := 0
  variations : List CampaignVariationM := []
deriving Repr, DecidableEq

/-- A campaign document (server model `Campaign`); only the fields read by
the validation, start and pause handlers are modelled. -/
structure CampaignM where
  id : String := ""
  user_id : String := ""
  name : String := ""
  steps : List CampaignStepM := []
  contact_ids : List String := []
  smtp_config_ids : List String := []
  custom_variables : List (String × String) := []
  status : String := "draft"
deriving Repr, DecidableEq

/-- A sending-account document (server model `SMTPConfig`); only the fields
read by the rotation selector are modelled. -/
structure SMTPConfigM where
  id : String := ""
  user_id : String := ""
  is_active : Bool := true
  daily_sent_count : Nat := 0
  daily_limit : Nat := 300
deriving Repr, DecidableEq

/-- A queued email document as created by `EmailQueue.add_to_queue`. -/
structure QueueItem where
  id : String := ""
  campaign_id : String := ""
  contact_id : String := ""
  subject : String := ""
  content : String := ""
  status : String := "pending"
  scheduled_at : Nat := 0
  created_at : Nat := 0
  attempts : Nat := 0
  max_attempts : Nat := 3
  error_message : Option String := none
  sent_at : Option Nat := none
  provider : Option String := none
  updated_at : Option Nat := none
deriving Repr, DecidableEq

/-- An email-tracking document (server model `EmailTracking`); only the
fields touched by the pixel endpoint are modelled. -/
structure TrackingRecord where
  id : String := ""
  tracking_pixel_id : String := ""
  status : String := "pending"
  opened_at : Option Nat := none
deriving Repr, DecidableEq

/-- Embeds `update_one`: apply `f` to the first element satisfying `p`, leaving
every other element unchanged. -/
def updateFirst (p : α → Bool) (f : α → α) : List α → List α
  | [] => []
  | x :: xs => if p x then f x :: xs else x :: updateFirst p f xs

/-! ## Retry controller (`EmailQueue._retry_or_fail_email`) -/

/-- Embeds `EmailQueue._retry_or_fail_email`: increment the attempt counter; if it
reaches `max_attempts`, mark the item failed (via `_update_email_status`,
which also stamps `updated_at`); otherwise reschedule it
`min(300 * 2 ** attempts, 3600)` seconds into the future, where `attempts`
is the incremented counter, storing the new counter and the error message
with the reschedule. -/
def retry_or_fail_email (item : QueueItem) (now : Nat) (error : String) : QueueItem :=
  let attempts := item.attempts + 1
  if attempts ≥ item.max_attempts then
    { item with status := "failed", error_message := some error, updated_at := some now }
  else
    { item with attempts := attempts,
                scheduled_at := now + min (300 * 2 ^ attempts) 3600,
                error_message := some error }

/-! ## Inbox rotation selector (`get_next_smtp_config`) -/

/-- Python `min(available_configs, key=lambda c: c.get("daily_sent_count", 0))`:
the first element attaining the minimal daily sent count. -/
def minBySentCount : List SMTPConfigM → Option SMTPConfigM
  | [] => none
  | c :: rest =>
    some (rest.foldl (fun best x =>
      if x.daily_sent_count < best.daily_sent_count then x else best) c)

/-- The database query of `get_next_smtp_config`: the user's active configs
among the selected ids (bound to `configs` in the source). -/
def selectedConfigs (smtp_config_ids : List String) (user_id : String)
    (configs : List SMTPConfigM) : List SMTPConfigM :=
  configs.filter (fun c =>
    smtp_config_ids.contains c.id && c.user_id == user_id && c.is_active)

/-- The `available_configs` loop of `get_next_smtp_config`: those selected
configs that have not reached their daily limit. -/
def availableConfigs (smtp_config_ids : List String) (user_id : String)
    (configs : List SMTPConfigM) : List SMTPConfigM :=
  (selectedConfigs smtp_config_ids user_id configs).filter
    (fun c => c.daily_sent_count < c.daily_limit)

/-- Embeds `get_next_smtp_config`: among the user's active configs in the campaign's
selected ids, keep those strictly under their daily limit and return the one
with the lowest `daily_sent_count`; `none` when no config survives. -/
def get_next_smtp_config (smtp_config_ids : List String) (user_id : String)
    (configs : List SMTPConfigM) : Option SMTPConfigM :=
  if smtp_config_ids.isEmpty then none
  else if (selectedConfigs smtp_config_ids user_id configs).isEmpty then none
  else if (availableConfigs smtp_config_ids user_id configs).isEmpty then none
  else minBySentCount (availableConfigs smtp_config_ids user_id configs)

/-! ## Open-tracking pixel endpoint (`track_email_open`) -/

/-- The fixed 1x1 transparent GIF returned by the pixel endpoint, as bytes. -/
def pixelGifBytes : List Nat :=
  [0x47, 0x49, 0x46, 0x38, 0x39, 0x61, 0x01, 0x00, 0x01, 0x00, 0x80, 0x00,
   0x00, 0xFF, 0xFF, 0xFF, 0x00, 0x00, 0x00, 0x21, 0xF9, 0x04, 0x01, 0x00,
   0x00, 0x00, 0x00, 0x2C, 0x00, 0x00, 0x00, 0x00, 0x01, 0x00, 0x01, 0x00,
   0x00, 0x02, 0x02, 0x04, 0x01, 0x00, 0x3B]

/-- Embeds `track_email_open`: `update_one` with the filter
`tracking_pixel_id == token AND opened_at does not exist`, setting
`opened_at` and `status = "opened"`; the 1x1 pixel is returned in all cases. -/
def track_email_open (recs : List TrackingRecord) (token : String) (now : Nat) :
    List TrackingRecord × List Nat :=
  (updateFirst (fun r => r.tracking_pixel_id == token && r.opened_at.isNone)
    (fun r => { r with opened_at := some now, status := "opened" }) recs,
   pixelGifBytes)

/-! ## Variation selector (`select_campaign_variation`) -/

/-- The weight-walking loop of `select_campaign_variation`: accumulate
weights and return the first variation whose cumulative weight reaches the
drawn number, falling back to the last variation after the loop. -/
def walkPick (rand : Nat) : Nat → List CampaignVariationM → Option CampaignVariationM
  | _, [] => none
  | cumulative, v :: vs =>
    if rand ≤ cumulative + v.weight then some v
    else
      match vs with
      | [] => some v
      | _ :: _ => walkPick rand (cumulative + v.weight) vs

/-- Embeds `select_campaign_variation`: with no variations return `None`; otherwise
seed the module-global generator from `hash(f"step.id_contact_id")` and, for a
zero total weight, return the first variation, else draw
`randint(1, total_weight)` and walk the variations. The generator is modelled
by an explicit state `g : G` with injected `seedFn`/`randintFn`, and the
`hash` builtin by an injected `strHash`. -/
def select_campaign_variation {G : Type} (seedFn : Int → G)
    (randintFn : G → Nat → Nat → Nat × G) (strHash : String → Int)
    (step : CampaignStepM) (contact_id : String) (g : G) :
    Option CampaignVariationM × G :=
  match step.variations with
  | [] => (none, g)
  | v :: vs =>
    let contact_hash := strHash (step.id ++ "_" ++ contact_id)
    let g1 := seedFn contact_hash
    let total_weight := ((v :: vs).map (fun x => x.weight)).sum
    if total_weight = 0 then (some v, g1)
    else
      let rg := randintFn g1 1 total_weight
      (walkPick rg.1 0 (v :: vs), rg.2)

/-! ## Queue processing and campaign pause -/

/-- The database state the queue processor and the pause handler touch. -/
structure DB where
  campaigns : List CampaignM := []
  email_queue : List QueueItem := []
deriving Repr, DecidableEq

/-- Embeds `pause_campaign` handler: `update_one` setting the campaign's status to
`paused`; it writes nothing else. -/
def pause_campaign (db : DB) (campaign_id user_id : String) : DB :=
  { db with
    campaigns :=
      updateFirst
        (fun c => c.id == campaign_id && c.user_id == user_id)
        (fun c => { c with status := "paused" })
        db.campaigns }

/-- The dequeue query of `EmailQueue.process_queue`: pending items whose
`scheduled_at` is due and whose `attempts` are below 3, limited to 10. The
query reads only the `email_queue` collection. -/
def dequeueSelection (db : DB) (now : Nat) : List QueueItem :=
  (db.email_queue.filter (fun i =>
    i.status == "pending" && decide (i.scheduled_at ≤ now) &&
      decide (i.attempts < 3))).take 10

/-! ## Send executor (`SMTPManager` and `EmailQueue._send_queued_email`) -/

/-- A loaded provider of `SMTPManager` (`EmailProvider` base-class fields the
rotation logic reads). -/
structure ProviderM where
  name : String := ""
  provider : String := "custom"
  daily_limit : Nat := 100
  is_active : Bool := true
deriving Repr, DecidableEq

/-- Embeds `EmailProvider.get_daily_sent_count`: the source is a stub that always
returns 0 ("would be implemented with database queries"). -/
def get_daily_sent_count (_p : ProviderM) : Nat := 0

/-- Embeds `EmailProvider.can_send_today`. -/
def can_send_today (p : ProviderM) : Bool :=
  decide (get_daily_sent_count p < p.daily_limit)

/-- Loop body of `SMTPManager.get_next_provider`: try indices
`(last + i) % n` for `i = 0 .. n-1`; `fuel` counts the remaining loop
iterations. -/
def gnpGo (providers : List ProviderM) (last n : Nat) :
    Nat → Nat → Option (ProviderM × Nat)
  | _, 0 => none
  | i, fuel + 1 =>
    let index := (last + i) % n
    match providers.get? index with
    | none => gnpGo providers last n (i + 1) fuel
    | some p =>
      if p.is_active && can_send_today p then some (p, (index + 1) % n)
      else gnpGo providers last n (i + 1) fuel

/-- Embeds `SMTPManager.get_next_provider`: round-robin from the last used index
over active providers that can still send today; the returned `Nat` is the
updated `_last_provider_index`. -/
def get_next_provider (providers : List ProviderM) (last : Nat) :
    Option (ProviderM × Nat) :=
  if providers.isEmpty then none
  else gnpGo providers last providers.length 0 providers.length

/-- The dict returned by a provider send / by `SMTPManager.send_email`. -/
structure SendResult where
  success : Bool
  error : Option String := none
  provider : Option String := none
deriving Repr, DecidableEq

/-- Embeds `SMTPManager.send_email`: pick the next provider; when none is available
return the failure dict with error "No available email providers", otherwise
delegate to the provider's transport (a black-box collaborator, injected as
`transport`). The second component is the updated rotation index. -/
def smtp_manager_send_email (providers : List ProviderM) (last : Nat)
    (transport : ProviderM → SendResult) : SendResult × Nat :=
  match get_next_provider providers last with
  | none => ({ success := false, error := some ("No available email providers") }, last)
  | some (p, last2) => (transport p, last2)

/-- Embeds `EmailQueue._send_queued_email`: resolve the contact (missing contact
fails the item outright), send through `SMTPManager.send_email`, then either
mark the item sent (with metadata) or hand it to
`_retry_or_fail_email` with the result's error, defaulting to
"Unknown error". -/
def send_queued_email (providers : List ProviderM) (last : Nat)
    (transport : ProviderM → SendResult) (contact : Option ContactD)
    (item : QueueItem) (now : Nat) : QueueItem :=
  match contact with
  | none =>
    { item with status := "failed",
                error_message := some ("Contact not found"),
                updated_at := some now }
  | some _ =>
    let result := (smtp_manager_send_email providers last transport).1
    if result.success then
      { item with status := "sent", updated_at := some now,
                  provider := result.provider, sent_at := some now }
    else
      retry_or_fail_email item now (result.error.getD ("Unknown error"))

/-! ## Personalization engine (`personalize_template`)

The regex `r"\x7b\x7b([^\x7d]+)\x7d\x7d"` (two opening braces, one or more
non-closing-brace characters, two closing braces) is embedded as an explicit
left-to-right scanner on character lists. Matching is greedy and cannot
backtrack usefully for this pattern, so a match at a position exists exactly
when the maximal run of non-closing-brace characters after a double opening
brace is nonempty and followed by a double closing brace; on failure the scan
advances one character, on success it continues after the match, mirroring
`re.sub` / `re.findall`. -/

/-- Predicate for the character class of the token body: any character other
than a closing brace. -/
def nonRB (c : Char) : Bool := c != '}'

/-- The whitespace class of Python `\s` / `str.strip()` (ASCII range). -/
def isPyWs (c : Char) : Bool :=
  c == ' ' || c == '\t' || c == '\n' || c == '\r' || c == '\x0b' || c == '\x0c'

/-- Python `str.strip()` on a character list. -/
def stripChars (s : List Char) : List Char :=
  ((s.dropWhile isPyWs).reverse.dropWhile isPyWs).reverse

/-- Python `str.lower()` on a character list (ASCII agrees with Unicode on
every input the backend handles). -/
def lowerChars (s : List Char) : List Char := s.map Char.toLower

/-- The `variables` dict of `personalize_template` before custom variables
are merged: the contact's standard fields, with `full_name` built as the
stripped concatenation of first and last name. -/
def stdVars (contact : ContactD) : List (String × String) :=
  [(("first_name"), contact.first_name),
   (("last_name"), contact.last_name),
   (("full_name"), String.mk (stripChars
      (contact.first_name ++ (" ") ++ contact.last_name).data)),
   (("email"), contact.email),
   (("company"), contact.company),
   (("phone"), contact.phone)]

/-- Association-list lookup, first binding wins (dict lookup). -/
def lookupAssoc : List (String × String) → String → Option String
  | [], _ => none
  | (k, v) :: rest, key => if k = key then some v else lookupAssoc rest key

/-- Embeds `variables.get(var_name)` after `variables.update(custom_variables)`:
custom variables override and extend the standard fields. -/
def lookupVar (contact : ContactD) (custom : List (String × String))
    (key : String) : Option String :=
  match lookupAssoc custom key with
  | some v => some v
  | none => lookupAssoc (stdVars contact) key

/-- Embeds `replace_variable`: look up the lower-cased (not stripped) group; when
the name is unknown, re-emit a token built from the lower-cased name. -/
def replaceVariable (contact : ContactD) (custom : List (String × String))
    (run : List Char) : List Char :=
  let var_name := String.mk (lowerChars run)
  match lookupVar contact custom var_name with
  | some v => v.data
  | none => '{' :: '{' :: (var_name.data ++ ['}', '}'])

/-- The `re.sub` substitution scan of `personalize_template`. `fuel` bounds
the number of scan steps; any `fuel` at least the input length is exact. -/
def substFuel (contact : ContactD) (custom : List (String × String)) :
    Nat → List Char → List Char
  | 0, s => s
  | _ + 1, [] => []
  | fuel + 1, c :: rest =>
    if c == '{' then
      match rest with
      | c2 :: rest2 =>
        if c2 == '{' then
          let sp := List.span nonRB rest2
          match sp.2 with
          | d1 :: d2 :: rest3 =>
            if d1 == '}' && d2 == '}' && !sp.1.isEmpty then
              replaceVariable contact custom sp.1 ++
                substFuel contact custom fuel rest3
            else c :: substFuel contact custom fuel rest
          | _ => c :: substFuel contact custom fuel rest
        else c :: substFuel contact custom fuel rest
      | [] => c :: substFuel contact custom fuel rest
    else c :: substFuel contact custom fuel rest

/-- The `re.findall` scan of `extract_variables_from_template`: the matched
groups, in order. -/
def collectRunsFuel : Nat → List Char → List (List Char)
  | 0, _ => []
  | _ + 1, [] => []
  | fuel + 1, c :: rest =>
    if c == '{' then
      match rest with
      | c2 :: rest2 =>
        if c2 == '{' then
          let sp := List.span nonRB rest2
          match sp.2 with
          | d1 :: d2 :: rest3 =>
            if d1 == '}' && d2 == '}' && !sp.1.isEmpty then
              sp.1 :: collectRunsFuel fuel rest3
            else collectRunsFuel fuel rest
          | _ => collectRunsFuel fuel rest
        else collectRunsFuel fuel rest
      | [] => collectRunsFuel fuel rest
    else collectRunsFuel fuel rest

/-- The whitespace collapse `re.sub(r"\s+", " ", ...)` at the end of
`personalize_template`: every maximal whitespace run becomes one space. The
flag records whether the previous character was whitespace. -/
def collapseAux : Bool → List Char → List Char
  | _, [] => []
  | prevWs, c :: rest =>
    if isPyWs c then
      if prevWs then collapseAux true rest
      else ' ' :: collapseAux true rest
    else c :: collapseAux false rest

/-- Whitespace collapse on a whole list. -/
def collapseWs (s : List Char) : List Char := collapseAux false s

/-- Embeds `personalize_template`: substitute double-brace tokens, then collapse
whitespace runs to single spaces. -/
def personalize_template (template : String) (contact : ContactD)
    (custom : List (String × String)) : String :=
  String.mk (collapseWs
    (substFuel contact custom template.data.length template.data))

/-- Embeds `extract_variables_from_template`: the matched groups, stripped and
lower-cased, de-duplicated (`list(set(...))`, so only membership is
meaningful). -/
def extract_variables_from_template (template : String) : List String :=
  ((collectRunsFuel template.data.length template.data).map
    (fun r => String.mk (lowerChars (stripChars r)))).dedup

/-- Does a (whole) double-brace token start at the head of the list? -/
def startsTok (s : List Char) : Bool :=
  match s with
  | c :: c2 :: rest =>
    c == '{' && c2 == '{' &&
      (let sp := List.span nonRB rest
       match sp.2 with
       | d1 :: d2 :: _ => d1 == '}' && d2 == '}' && !sp.1.isEmpty
       | _ => false)
  | _ => false

/-- Does the list contain a double-brace token anywhere (a `re.search`
match of the token pattern)? -/
def hasTok : List Char → Bool
  | [] => false
  | c :: rest => startsTok (c :: rest) || hasTok rest

/-- Is the head character whitespace? -/
def headIsWs : List Char → Bool
  | [] => false
  | c :: _ => isPyWs c

/-- Whitespace-normal form: every whitespace character is a single space not
followed by further whitespace. -/
def wsNormal : List Char → Bool
  | [] => true
  | c :: rest => ((!isPyWs c) || (c == ' ' && !headIsWs rest)) && wsNormal rest

/-- Two consecutive space characters occur somewhere. -/
def hasAdjSpaces : List Char → Bool
  | c1 :: c2 :: rest => (c1 == ' ' && c2 == ' ') || hasAdjSpaces (c2 :: rest)
  | _ => false

/-- No opening or closing brace occurs in the list. -/
def braceFreeL (s : List Char) : Prop := ∀ c ∈ s, c ≠ '{' ∧ c ≠ '}'

instance instDecidableBraceFreeL (s : List Char) : Decidable (braceFreeL s) :=
  inferInstanceAs (Decidable (∀ c ∈ s, c ≠ '{' ∧ c ≠ '}'))

/-- A template decomposed into literal text and well-formed tokens, used to
state the amended round-trip property. -/
inductive Piece where
  | lit (s : List Char)
  | tok (name : List Char)
deriving Repr, DecidableEq

/-- The template string denoted by a piece list. -/
def flattenPieces : List Piece → List Char
  | [] => []
  | .lit s :: ps => s ++ flattenPieces ps
  | .tok n :: ps => '{' :: '{' :: (n ++ '}' :: '}' :: flattenPieces ps)

/-- The token names of a piece list, in order. -/
def tokNames : List Piece → List (List Char)
  | [] => []
  | .lit _ :: ps => tokNames ps
  | .tok n :: ps => n :: tokNames ps

/-- Well-formedness of a piece: literal text has no braces; a token name is
nonempty, free of closing braces, and carries no surrounding whitespace. -/
def wfPiece : Piece → Prop
  | .lit s => braceFreeL s
  | .tok n => n ≠ [] ∧ (∀ c ∈ n, c ≠ '}') ∧ stripChars n = n

instance instDecidableWfPiece : DecidablePred wfPiece := by
  intro p
  cases p with
  | lit s => exact inferInstanceAs (Decidable (braceFreeL s))
  | tok n =>
    exact inferInstanceAs (Decidable (n ≠ [] ∧ (∀ c ∈ n, c ≠ '}') ∧ stripChars n = n))

/-! ## Campaign validation and start (`validate_campaign`, `start_campaign`) -/

/-- Embeds `validate_campaign_variables`: all subject/content templates of all
steps, in loop order. -/
def allTemplates (campaign : CampaignM) : List String :=
  campaign.steps.foldl (fun acc step =>
    step.variations.foldl (fun acc2 v => acc2 ++ [v.subject, v.content]) acc) []

/-- The union of the variables of every template (a Python set; only
membership is meaningful). -/
def requiredVariables (campaign : CampaignM) : List String :=
  ((allTemplates campaign).foldl
    (fun acc t => acc ++ extract_variables_from_template t) []).dedup

/-- Embeds `available_fields` of `validate_campaign_variables` (note: it does not
include `full_name`). -/
def availableFields : List String :=
  [("first_name"), ("last_name"), ("email"), ("company"), ("phone")]

/-- The `missing_variables.add(var)` step: record a required variable not
covered by a contact field or a custom variable (set insertion). -/
def insertIfMissing (custom : List (String × String)) (acc : List String)
    (v : String) : List String :=
  if v ∈ availableFields then acc
  else if (lookupAssoc custom v).isSome then acc
  else if v ∈ acc then acc else acc ++ [v]

/-- The contact loop of `validate_campaign_variables`: for each contact, for
each required variable, record it when uncovered. With no contacts the loop
body never runs. -/
def missingVariables (campaign : CampaignM) (contacts : List ContactD) :
    List String :=
  contacts.foldl (fun acc _ =>
    (requiredVariables campaign).foldl
      (insertIfMissing campaign.custom_variables) acc) []

/-- Embeds `validation_result["valid"]`. -/
def variablesValid (campaign : CampaignM) (contacts : List ContactD) : Bool :=
  (missingVariables campaign contacts).isEmpty

/-- The `smtp_issues` list of `validate_campaign`. -/
def smtpIssues (campaign : CampaignM) (configs : List SMTPConfigM) : List String :=
  if campaign.smtp_config_ids.isEmpty then [("No SMTP configurations selected")]
  else
    let smtp_count := (configs.filter (fun c =>
      campaign.smtp_config_ids.contains c.id &&
        c.user_id == campaign.user_id && c.is_active)).length
    if smtp_count = 0 then [("No active SMTP configurations found")]
    else if smtp_count < campaign.smtp_config_ids.length then
      [("Some SMTP configurations are inactive or not found")]
    else []

/-- Inner loop of the setup check: issues for one (enumerated) variation. -/
def variationIssuesFold (i : Nat) (acc : List String)
    (jv : Nat × CampaignVariationM) : List String :=
  let acc4 := if (stripChars jv.2.subject.data).isEmpty then
      acc ++ [("Step ") ++ toString (i + 1) ++ (", Variation ") ++
        toString (jv.1 + 1) ++ (" has no subject")]
    else acc
  if (stripChars jv.2.content.data).isEmpty then
    acc4 ++ [("Step ") ++ toString (i + 1) ++ (", Variation ") ++
      toString (jv.1 + 1) ++ (" has no content")]
  else acc4

/-- Outer loop of the setup check: issues for one (enumerated) step. -/
def stepIssuesFold (acc : List String) (is : Nat × CampaignStepM) : List String :=
  let acc2 := if is.2.variations.isEmpty then
      acc ++ [("Step ") ++ toString (is.1 + 1) ++ (" has no email variations")]
    else acc
  is.2.variations.enum.foldl (variationIssuesFold is.1) acc2

/-- The `setup_issues` list of `validate_campaign`. -/
def setupIssues (campaign : CampaignM) : List String :=
  if campaign.steps.isEmpty then [("Campaign has no email steps configured")]
  else campaign.steps.enum.foldl stepIssuesFold []

/-- Embeds `validate_campaign`'s `is_valid`: variable validation passes and there
are no SMTP issues and no setup issues. The contact count is not examined. -/
def campaignIsValid (campaign : CampaignM) (contacts : List ContactD)
    (configs : List SMTPConfigM) : Bool :=
  variablesValid campaign contacts && (smtpIssues campaign configs).isEmpty &&
    (setupIssues campaign).isEmpty

/-- Embeds `start_campaign` endpoint: validate, then set the campaign status to
`sending`. It performs no other write: the email queue is returned untouched
(the handler contains no insert into any queue collection). -/
def start_campaign (campaign : CampaignM) (contacts : List ContactD)
    (configs : List SMTPConfigM) (queue : List QueueItem) :
    Except String (CampaignM × List QueueItem) :=
  if campaignIsValid campaign contacts configs then
    .ok ({ campaign with status := "sending" }, queue)
  else
    .error ("Campaign validation failed")

/-! ## Legacy campaign scheduler (`CampaignSender.schedule_campaign`) -/

/-- The flat campaign shape read by `CampaignSender.schedule_campaign`
(`campaign["subject"]`, `campaign["content"]`, with the source's `.get`
defaults for `daily_limit` and `delay_between_emails`). -/
structure FlatCampaign where
  id : String := ""
  subject : String := ""
  content : String := ""
  daily_limit : Nat := 50
  delay_between_emails : Nat := 300
  contact_ids : List String := []
deriving Repr, DecidableEq

/-- Embeds `CampaignSender._personalize_content`: plain sequential `str.replace` of
the six standard tags (no regex, no whitespace collapse, no custom
variables); empty content is returned unchanged. -/
def personalize_content_es (content : String) (contact : ContactD) : String :=
  if content = ("") then content
  else
    (((((content.replace ("\x7b\x7bfirst_name\x7d\x7d") contact.first_name).replace
      ("\x7b\x7blast_name\x7d\x7d") contact.last_name).replace
      ("\x7b\x7bfull_name\x7d\x7d")
        (String.mk (stripChars (contact.first_name ++ (" ") ++ contact.last_name).data))).replace
      ("\x7b\x7bemail\x7d\x7d") contact.email).replace
      ("\x7b\x7bcompany\x7d\x7d") contact.company).replace
      ("\x7b\x7bphone\x7d\x7d") contact.phone

/-- Embeds `EmailQueue.add_to_queue`: build the queue document (`uuid4` modelled by
the injected id source applied to a running index). -/
def add_to_queue (idSrc : Nat → String) (idx : Nat) (now : Nat)
    (campaign_id contact_id subject content : String) (scheduled_at : Nat) :
    QueueItem :=
  { id := idSrc idx, campaign_id := campaign_id, contact_id := contact_id,
    subject := subject, content := content, status := "pending",
    scheduled_at := scheduled_at, created_at := now, attempts := 0,
    max_attempts := 3 }

/-- Embeds `current_time += timedelta(days=1)` followed by
`replace(hour=9, minute=0, second=0, microsecond=0)`, on UTC epoch seconds. -/
def nextDay9 (t : Nat) : Nat := ((t + 86400) / 86400) * 86400 + 9 * 3600

/-- The contact loop of `schedule_campaign`. State: queued items so far,
`current_time`, `scheduled_count`, and the running id index. -/
def scheduleGo (idSrc : Nat → String) (c : FlatCampaign) (now : Nat) :
    List ContactD → List QueueItem × Nat × Nat × Nat →
      List QueueItem × Nat × Nat × Nat
  | [], st => st
  | contact :: rest, st =>
    let items := st.1
    let cur := st.2.1
    let cnt := st.2.2.1
    let idx := st.2.2.2
    let cur2 := if cnt ≥ c.daily_limit then nextDay9 cur else cur
    let cnt2 := if cnt ≥ c.daily_limit then 0 else cnt
    let send_time := cur2 + c.delay_between_emails * cnt2
    let item := add_to_queue idSrc idx now c.id contact.id
      (personalize_content_es c.subject contact)
      (personalize_content_es c.content contact) send_time
    scheduleGo idSrc c now rest (items ++ [item], cur2, cnt2 + 1, idx + 1)

/-- Embeds `CampaignSender.schedule_campaign`: reject a campaign with no selected
contacts; otherwise enqueue one item per resolved contact and set the
campaign status to `scheduled`. -/
def schedule_campaign (idSrc : Nat → String) (c : FlatCampaign)
    (contacts : List ContactD) (now : Nat) :
    Except String (List QueueItem × String) :=
  if c.contact_ids.isEmpty then .error ("No contacts selected")
  else .ok ((scheduleGo idSrc c now contacts ([], now, 0, 0)).1, ("scheduled"))

/-- Concrete valid campaign used by the C1 counterexample and witness. -/
def campaignC1 : CampaignM :=
  { id := "c1", user_id := "u1", name := "camp",
    steps := [{ id := "s1", sequence_order := 1,
                variations := [{ id := "v1", name := "A", subject := "Hello",
                                 content := "World", weight := 100 }] }],
    contact_ids := ["ct1"], smtp_config_ids := ["a"] }

/-- Concrete zero-contact campaign used by the C7 counterexample. -/
def campaignC7 : CampaignM :=
  { id := "c7", user_id := "u1", name := "camp7",
    steps := [{ id := "s7", sequence_order := 1,
                variations := [{ id := "v7", name := "A", subject := "Hello",
                                 content := "World", weight := 100 }] }],
    contact_ids := [], smtp_config_ids := ["a"] }

/-! ## Helper lemmas -/

theorem braceFreeL_nil : braceFreeL [] := by
  intro c hc
  exact absurd hc (List.not_mem_nil c)

theorem braceFreeL_cons {c : Char} {s : List Char} (h : braceFreeL (c :: s)) :
    (c ≠ '{' ∧ c ≠ '}') ∧ braceFreeL s :=
  ⟨h c (List.mem_cons_self c s), fun x hx => h x (List.mem_cons_of_mem c hx)⟩

theorem braceFreeL_append {s t : List Char} (hs : braceFreeL s) (ht : braceFreeL t) :
    braceFreeL (s ++ t) := by
  intro c hc
  rcases List.mem_append.mp hc with h | h
  · exact hs c h
  · exact ht c h

theorem span_nonRB_exact (n : List Char) (l : List Char) (h : ∀ c ∈ n, c ≠ '}') :
    List.span nonRB (n ++ '}' :: l) = (n, '}' :: l) := by
  rw [List.span_eq_take_drop]
  induction n with
  | nil =>
    simp [List.takeWhile_cons, List.dropWhile_cons, nonRB]
  | cons c cs ih =>
    have hc : nonRB c = true := by
      simp only [nonRB, bne_iff_ne, ne_eq]
      exact h c (List.mem_cons_self c cs)
    have ihr := ih (fun x hx => h x (List.mem_cons_of_mem c hx))
    simp only [List.cons_append, List.takeWhile_cons, List.dropWhile_cons, hc, if_true]
    rw [Prod.mk.injEq] at ihr ⊢
    exact ⟨by rw [ihr.1], ihr.2⟩

theorem substFuel_nilinput (contact : ContactD) (custom : List (String × String))
    (fuel : Nat) : substFuel contact custom fuel [] = [] := by
  cases fuel <;> rfl

theorem substFuel_cons_lit (contact : ContactD) (custom : List (String × String))
    (ch : Char) (t : List Char) (h : ch ≠ '{') (fuel : Nat) :
    substFuel contact custom (fuel + 1) (ch :: t) =
      ch :: substFuel contact custom fuel t := by
  simp only [substFuel]
  rw [if_neg (by simp [h])]

theorem substFuel_token (contact : ContactD) (custom : List (String × String))
    (n rest : List Char) (hn : n ≠ []) (hnb : ∀ c ∈ n, c ≠ '}') (fuel : Nat) :
    substFuel contact custom (fuel + 1) ('{' :: '{' :: (n ++ '}' :: '}' :: rest)) =
      replaceVariable contact custom n ++ substFuel contact custom fuel rest := by
  have hne : (!n.isEmpty) = true := by
    cases n with
    | nil => exact absurd rfl hn
    | cons a as => rfl
  simp only [substFuel, span_nonRB_exact n ('}' :: rest) hnb, beq_self_eq_true,
    Bool.true_and, hne, Bool.and_true, if_true]

theorem collectRunsFuel_nilinput (fuel : Nat) : collectRunsFuel fuel [] = [] := by
  cases fuel <;> rfl

theorem collectRunsFuel_cons_lit (ch : Char) (t : List Char) (h : ch ≠ '{')
    (fuel : Nat) :
    collectRunsFuel (fuel + 1) (ch :: t) = collectRunsFuel fuel t := by
  simp only [collectRunsFuel]
  rw [if_neg (by simp [h])]

theorem collectRunsFuel_token (n rest : List Char) (hn : n ≠ [])
    (hnb : ∀ c ∈ n, c ≠ '}') (fuel : Nat) :
    collectRunsFuel (fuel + 1) ('{' :: '{' :: (n ++ '}' :: '}' :: rest)) =
      n :: collectRunsFuel fuel rest := by
  have hne : (!n.isEmpty) = true := by
    cases n with
    | nil => exact absurd rfl hn
    | cons a as => rfl
  simp only [collectRunsFuel, span_nonRB_exact n ('}' :: rest) hnb, beq_self_eq_true,
    Bool.true_and, hne, Bool.and_true, if_true]

theorem substFuel_litRun (contact : ContactD) (custom : List (String × String))
    (s : List Char) (hs : braceFreeL s) :
    ∀ (fuel : Nat) (rest : List Char), s.length + rest.length ≤ fuel →
      substFuel contact custom fuel (s ++ rest) =
        s ++ substFuel contact custom (fuel - s.length) rest := by
  induction s with
  | nil =>
    intro fuel rest _
    simp
  | cons c cs ih =>
    intro fuel rest hf
    cases fuel with
    | zero =>
      exfalso
      simp only [List.length_cons] at hf
      omega
    | succ f =>
      have hc : c ≠ '{' := (braceFreeL_cons hs).1.1
      have harith : f + 1 - (c :: cs).length = f - cs.length := by
        simp only [List.length_cons]
        omega
      rw [harith, List.cons_append,
        substFuel_cons_lit contact custom c (cs ++ rest) hc f,
        ih (braceFreeL_cons hs).2 f rest
          (by simp only [List.length_cons] at hf; omega)]
      rfl

theorem collectRunsFuel_litRun (s : List Char) (hs : braceFreeL s) :
    ∀ (fuel : Nat) (rest : List Char), s.length + rest.length ≤ fuel →
      collectRunsFuel fuel (s ++ rest) =
        collectRunsFuel (fuel - s.length) rest := by
  induction s with
  | nil =>
    intro fuel rest _
    simp
  | cons c cs ih =>
    intro fuel rest hf
    cases fuel with
    | zero =>
      exfalso
      simp only [List.length_cons] at hf
      omega
    | succ f =>
      have hc : c ≠ '{' := (braceFreeL_cons hs).1.1
      have harith : f + 1 - (c :: cs).length = f - cs.length := by
        simp only [List.length_cons]
        omega
      rw [harith, List.cons_append, collectRunsFuel_cons_lit c (cs ++ rest) hc f,
        ih (braceFreeL_cons hs).2 f rest
          (by simp only [List.length_cons] at hf; omega)]

theorem substFuel_flatten_braceFree (contact : ContactD)
    (custom : List (String × String)) :
    ∀ (pieces : List Piece), (∀ p ∈ pieces, wfPiece p) →
      (∀ n, Piece.tok n ∈ pieces →
        ∃ v, lookupVar contact custom (String.mk (lowerChars n)) = some v ∧
          braceFreeL v.data) →
      ∀ fuel, (flattenPieces pieces).length ≤ fuel →
        braceFreeL (substFuel contact custom fuel (flattenPieces pieces)) := by
  intro pieces
  induction pieces with
  | nil =>
    intro _ _ fuel _
    simp only [flattenPieces]
    rw [substFuel_nilinput]
    exact braceFreeL_nil
  | cons p ps ih =>
    intro hw hsup fuel hf
    cases p with
    | lit s =>
      have hs : braceFreeL s := hw (.lit s) (List.mem_cons_self _ _)
      simp only [flattenPieces] at hf ⊢
      rw [substFuel_litRun contact custom s hs fuel (flattenPieces ps)
        (by simp only [List.length_append] at hf; omega)]
      refine braceFreeL_append hs ?_
      refine ih (fun q hq => hw q (List.mem_cons_of_mem _ hq))
        (fun n hn => hsup n (List.mem_cons_of_mem _ hn)) _ ?_
      simp only [List.length_append] at hf
      omega
    | tok n =>
      obtain ⟨hn, hnb, _⟩ := hw (.tok n) (List.mem_cons_self _ _)
      obtain ⟨v, hv, hvb⟩ := hsup n (List.mem_cons_self _ _)
      simp only [flattenPieces] at hf ⊢
      cases fuel with
      | zero =>
        exfalso
        simp only [List.length_cons] at hf
        omega
      | succ f =>
        rw [substFuel_token contact custom n (flattenPieces ps) hn hnb f]
        refine braceFreeL_append ?_ ?_
        · simp only [replaceVariable, hv]
          exact hvb
        · refine ih (fun q hq => hw q (List.mem_cons_of_mem _ hq))
            (fun m hm => hsup m (List.mem_cons_of_mem _ hm)) f ?_
          simp only [List.length_cons, List.length_append] at hf
          omega

theorem collectRuns_flatten :
    ∀ (pieces : List Piece), (∀ p ∈ pieces, wfPiece p) →
      ∀ fuel, (flattenPieces pieces).length ≤ fuel →
        collectRunsFuel fuel (flattenPieces pieces) = tokNames pieces := by
  intro pieces
  induction pieces with
  | nil =>
    intro _ fuel _
    simp only [flattenPieces, tokNames]
    exact collectRunsFuel_nilinput fuel
  | cons p ps ih =>
    intro hw fuel hf
    cases p with
    | lit s =>
      have hs : braceFreeL s := hw (.lit s) (List.mem_cons_self _ _)
      simp only [flattenPieces, tokNames] at hf ⊢
      rw [collectRunsFuel_litRun s hs fuel (flattenPieces ps)
        (by simp only [List.length_append] at hf; omega)]
      refine ih (fun q hq => hw q (List.mem_cons_of_mem _ hq)) _ ?_
      simp only [List.length_append] at hf
      omega
    | tok n =>
      obtain ⟨hn, hnb, _⟩ := hw (.tok n) (List.mem_cons_self _ _)
      simp only [flattenPieces, tokNames] at hf ⊢
      cases fuel with
      | zero =>
        exfalso
        simp only [List.length_cons] at hf
        omega
      | succ f =>
        rw [collectRunsFuel_token n (flattenPieces ps) hn hnb f]
        rw [ih (fun q hq => hw q (List.mem_cons_of_mem _ hq)) f
          (by simp only [List.length_cons, List.length_append] at hf; omega)]

theorem mem_tokNames {n : List Char} :
    ∀ {ps : List Piece}, Piece.tok n ∈ ps → n ∈ tokNames ps := by
  intro ps
  induction ps with
  | nil => intro h; exact absurd h (List.not_mem_nil _)
  | cons p qs ih =>
    intro h
    rcases List.mem_cons.mp h with heq | hmem
    · rw [← heq]
      simp only [tokNames]
      exact List.mem_cons_self n _
    · cases p with
      | lit s =>
        simp only [tokNames]
        exact ih hmem
      | tok m =>
        simp only [tokNames]
        exact List.mem_cons_of_mem m (ih hmem)

theorem startsTok_of_head_ne (c : Char) (t : List Char) (h : c ≠ '{') :
    startsTok (c :: t) = false := by
  cases t with
  | nil => rfl
  | cons c2 t2 =>
    simp only [startsTok]
    rw [show (c == '{') = false from by simp [h]]
    simp

theorem hasTok_of_braceFree (s : List Char) (h : braceFreeL s) :
    hasTok s = false := by
  induction s with
  | nil => rfl
  | cons c t ih =>
    simp only [hasTok]
    rw [startsTok_of_head_ne c t (braceFreeL_cons h).1.1, Bool.false_or]
    exact ih (braceFreeL_cons h).2

theorem collapseAux_braceFree (s : List Char) :
    ∀ b, braceFreeL s → braceFreeL (collapseAux b s) := by
  induction s with
  | nil =>
    intro b _
    exact braceFreeL_nil
  | cons c t ih =>
    intro b hb
    simp only [collapseAux]
    by_cases hw : isPyWs c = true
    · rw [if_pos hw]
      cases b with
      | true => exact ih true (braceFreeL_cons hb).2
      | false =>
        intro x hx
        rcases List.mem_cons.mp hx with rfl | hx2
        · exact ⟨by decide, by decide⟩
        · exact ih true (braceFreeL_cons hb).2 x hx2
    · rw [if_neg hw]
      intro x hx
      rcases List.mem_cons.mp hx with rfl | hx2
      · exact (braceFreeL_cons hb).1
      · exact ih false (braceFreeL_cons hb).2 x hx2

theorem headIsWs_collapseAux_true (s : List Char) :
    headIsWs (collapseAux true s) = false := by
  induction s with
  | nil => rfl
  | cons c t ih =>
    simp only [collapseAux]
    by_cases hw : isPyWs c = true
    · rw [if_pos hw]
      simp only [if_true]
      exact ih
    · rw [if_neg hw]
      simp only [headIsWs]
      simpa using hw

theorem wsNormal_collapseAux (s : List Char) :
    ∀ b, wsNormal (collapseAux b s) = true := by
  induction s with
  | nil => intro b; rfl
  | cons c t ih =>
    intro b
    simp only [collapseAux]
    by_cases hw : isPyWs c = true
    · rw [if_pos hw]
      cases b with
      | true => exact ih true
      | false =>
        rw [if_neg (by simp)]
        simp only [wsNormal, headIsWs_collapseAux_true]
        simp [ih true]
    · rw [if_neg hw]
      simp only [wsNormal]
      have hwf : isPyWs c = false := by simpa using hw
      simp [hwf, ih false]

theorem newline_not_mem_collapseAux (s : List Char) :
    ∀ b, ('\n') ∉ collapseAux b s := by
  induction s with
  | nil =>
    intro b h
    exact absurd h (List.not_mem_nil _)
  | cons c t ih =>
    intro b
    simp only [collapseAux]
    by_cases hw : isPyWs c = true
    · rw [if_pos hw]
      cases b with
      | true => exact ih true
      | false =>
        intro h
        rcases List.mem_cons.mp h with heq | hmem
        · exact absurd heq.symm (by decide)
        · exact ih true hmem
    · rw [if_neg hw]
      intro h
      rcases List.mem_cons.mp h with heq | hmem
      · rw [← heq] at hw
        exact hw (by decide)
      · exact ih false hmem

theorem wsNormal_false_of_adjSpaces (s : List Char)
    (h : hasAdjSpaces s = true) : wsNormal s = false := by
  induction s with
  | nil => simp [hasAdjSpaces] at h
  | cons c t ih =>
    cases t with
    | nil => simp [hasAdjSpaces] at h
    | cons c2 t2 =>
      simp only [hasAdjSpaces] at h
      rcases Bool.or_eq_true_iff.mp h with hsp | hrec
      · rw [Bool.and_eq_true] at hsp
        have hc : c = ' ' := eq_of_beq hsp.1
        have hc2 : c2 = ' ' := eq_of_beq hsp.2
        subst hc
        subst hc2
        simp [wsNormal, headIsWs, isPyWs]
      · have hih := ih hrec
        simp only [wsNormal] at hih
        simp only [wsNormal, hih, Bool.and_false]

theorem substFuel_id_of_noTok (contact : ContactD)
    (custom : List (String × String)) :
    ∀ (fuel : Nat) (s : List Char), hasTok s = false →
      substFuel contact custom fuel s = s := by
  intro fuel
  induction fuel with
  | zero => intro s _; rfl
  | succ f ih =>
    intro s hs
    cases s with
    | nil => rfl
    | cons c rest =>
      simp only [hasTok, Bool.or_eq_false_iff] at hs
      obtain ⟨hst, hrest⟩ := hs
      by_cases hc : c = '{'
      · subst hc
        cases rest with
        | nil =>
          simp only [substFuel]
          rw [if_pos (by decide), substFuel_nilinput]
        | cons c2 rest2 =>
          by_cases hc2 : c2 = '{'
          · subst hc2
            have hfail : (match (List.span nonRB rest2).2 with
                | d1 :: d2 :: _ =>
                  d1 == '}' && d2 == '}' && !(List.span nonRB rest2).1.isEmpty
                | _ => false) = false := by
              simpa only [startsTok, beq_self_eq_true, Bool.true_and] using hst
            simp only [substFuel]
            rw [if_pos (by decide), if_pos (by decide)]
            cases hsp : (List.span nonRB rest2).2 with
            | nil =>
              simp only [hsp]
              rw [ih ('{' :: rest2) hrest]
            | cons d1 tail1 =>
              cases tail1 with
              | nil =>
                simp only [hsp]
                rw [ih ('{' :: rest2) hrest]
              | cons d2 rest3 =>
                simp only [hsp] at hfail
                simp only [hsp]
                rw [if_neg (by rw [hfail]; exact Bool.false_ne_true)]
                rw [ih ('{' :: rest2) hrest]
          · simp only [substFuel]
            rw [if_pos (by decide), if_neg (by simp [hc2])]
            rw [ih (c2 :: rest2) hrest]
      · rw [substFuel_cons_lit contact custom c rest hc f, ih rest hrest]

theorem updateFirst_id (p : α → Bool) (f : α → α) (l : List α)
    (h : ∀ y ∈ l, p y = false) : updateFirst p f l = l := by
  induction l with
  | nil => rfl
  | cons x xs ih =>
    have hx := h x (List.mem_cons_self x xs)
    simp only [updateFirst]
    rw [if_neg (by simp [hx]), ih (fun y hy => h y (List.mem_cons_of_mem x hy))]

theorem mem_updateFirst_of_not (p : α → Bool) (f : α → α) (r : α) (l : List α)
    (h : p r = false) (hm : r ∈ l) : r ∈ updateFirst p f l := by
  induction l with
  | nil => exact absurd hm (List.not_mem_nil r)
  | cons x xs ih =>
    simp only [updateFirst]
    rcases List.mem_cons.mp hm with rfl | hmem
    · rw [if_neg (by simp [h])]
      exact List.mem_cons_self r _
    · by_cases hx : p x = true
      · rw [if_pos hx]
        exact List.mem_cons_of_mem _ hmem
      · rw [if_neg hx]
        exact List.mem_cons_of_mem x (ih hmem)

theorem minBySentCount_fold_spec (l : List SMTPConfigM) (init : SMTPConfigM) :
    (l.foldl (fun best x =>
        if x.daily_sent_count < best.daily_sent_count then x else best) init = init ∨
     l.foldl (fun best x =>
        if x.daily_sent_count < best.daily_sent_count then x else best) init ∈ l) ∧
    (l.foldl (fun best x =>
        if x.daily_sent_count < best.daily_sent_count then x else best) init).daily_sent_count
      ≤ init.daily_sent_count ∧
    ∀ x ∈ l,
      (l.foldl (fun best x =>
        if x.daily_sent_count < best.daily_sent_count then x else best) init).daily_sent_count
        ≤ x.daily_sent_count := by
  induction l generalizing init with
  | nil => exact ⟨Or.inl rfl, le_refl _, fun x hx => absurd hx (List.not_mem_nil x)⟩
  | cons y ys ih =>
    simp only [List.foldl_cons]
    rcases ih (if y.daily_sent_count < init.daily_sent_count then y else init) with
      ⟨hmem, hle, hall⟩
    refine ⟨?_, ?_, ?_⟩
    · rcases hmem with heq | hmem
      · rw [heq]
        by_cases hc : y.daily_sent_count < init.daily_sent_count
        · rw [if_pos hc]; exact Or.inr (List.mem_cons_self y ys)
        · rw [if_neg hc]; exact Or.inl rfl
      · exact Or.inr (List.mem_cons_of_mem y hmem)
    · refine le_trans hle ?_
      by_cases hc : y.daily_sent_count < init.daily_sent_count
      · rw [if_pos hc]; exact le_of_lt hc
      · rw [if_neg hc]
    · intro x hx
      rcases List.mem_cons.mp hx with rfl | hmem
      · refine le_trans hle ?_
        by_cases hc : x.daily_sent_count < init.daily_sent_count
        · rw [if_pos hc]
        · rw [if_neg hc]; exact le_of_not_lt hc
      · exact hall x hmem

theorem minBySentCount_spec (l : List SMTPConfigM) (c : SMTPConfigM)
    (h : minBySentCount l = some c) :
    c ∈ l ∧ ∀ x ∈ l, c.daily_sent_count ≤ x.daily_sent_count := by
  cases l with
  | nil => exact absurd h (by simp [minBySentCount])
  | cons y ys =>
    have hc : c = ys.foldl (fun best x =>
        if x.daily_sent_count < best.daily_sent_count then x else best) y := by
      simpa [minBySentCount] using h.symm
    rcases minBySentCount_fold_spec ys y with ⟨hmem, hle, hall⟩
    subst hc
    refine ⟨?_, ?_⟩
    · rcases hmem with heq | hmem
      · rw [heq]; exact List.mem_cons_self y ys
      · exact List.mem_cons_of_mem y hmem
    · intro x hx
      rcases List.mem_cons.mp hx with rfl | hmem
      · exact hle
      · exact hall x hmem

/-! ## Claim theorems: C4, C6, C10 -/

/-- Claim C4: on a failed attempt, an item with `attempts + 1` still below
`max_attempts` stays `pending` and is rescheduled `min(300 * 2 ** attempts, 3600)`
seconds ahead, where the exponent is the attempt counter incremented together
with the reschedule; an item whose `attempts` already equals `max_attempts - 1`
transitions to `failed` instead of another pending retry. -/
theorem claim_C4_retry_backoff (item : QueueItem) (now : Nat) (error : String)
    (hpend : item.status = "pending") :
    (item.attempts + 1 < item.max_attempts →
      retry_or_fail_email item now error =
        { item with attempts := item.attempts + 1,
                    scheduled_at := now + min (300 * 2 ^ (item.attempts + 1)) 3600,
                    error_message := some error } ∧
      (retry_or_fail_email item now error).status = "pending") ∧
    (item.attempts = item.max_attempts - 1 →
      (retry_or_fail_email item now error).status = "failed") := by
  constructor
  · intro hlt
    have hcond : ¬ (item.attempts + 1 ≥ item.max_attempts) := by omega
    constructor
    · simp only [retry_or_fail_email, if_neg hcond]
    · simp only [retry_or_fail_email, if_neg hcond]
      exact hpend
  · intro hb
    have hcond : item.attempts + 1 ≥ item.max_attempts := by omega
    simp only [retry_or_fail_email, if_pos hcond]

/-- Witness for C4 at concrete inputs: a first failure of a fresh item keeps
it pending with a 600-second backoff, and a failure at `attempts = 2` of a
3-attempt item marks it failed. -/
theorem claim_C4_retry_backoff_witness :
    retry_or_fail_email { attempts := 0, max_attempts := 3 } 1000 ("auth error") =
      { attempts := 1, max_attempts := 3, scheduled_at := 1600,
        error_message := some ("auth error") } ∧
    (retry_or_fail_email { attempts := 2, max_attempts := 3 } 1000 ("auth error")).status
      = "failed" := by
  refine ⟨?_, ?_⟩
  · have h := ((claim_C4_retry_backoff
      { attempts := 0, max_attempts := 3 } 1000 ("auth error") rfl).1 (by decide)).1
    simpa using h
  · exact (claim_C4_retry_backoff
      { attempts := 2, max_attempts := 3 } 1000 ("auth error") rfl).2 (by decide)

/-- Claim C6: `get_next_smtp_config` only ever returns an account that is in
the pool, selected, owned by the user, active and strictly under its daily
limit, and whose `daily_sent_count` is minimal among all such accounts; when
every selected active account of the user is at or above its daily limit it
returns the none-available sentinel. -/
theorem claim_C6_select_account (ids : List String) (uid : String)
    (configs : List SMTPConfigM) :
    (∀ c, get_next_smtp_config ids uid configs = some c →
      c ∈ configs ∧ ids.contains c.id = true ∧ c.user_id = uid ∧
      c.is_active = true ∧ c.daily_sent_count < c.daily_limit ∧
      ∀ x ∈ configs, ids.contains x.id = true → x.user_id = uid →
        x.is_active = true → x.daily_sent_count < x.daily_limit →
        c.daily_sent_count ≤ x.daily_sent_count) ∧
    ((∀ x ∈ configs, ids.contains x.id = true → x.user_id = uid →
        x.is_active = true → x.daily_limit ≤ x.daily_sent_count) →
      get_next_smtp_config ids uid configs = none) := by
  constructor
  · intro c hc
    rw [get_next_smtp_config] at hc
    by_cases hids : ids.isEmpty
    · rw [if_pos hids] at hc; exact absurd hc (by simp)
    · rw [if_neg hids] at hc
      by_cases hcs : (selectedConfigs ids uid configs).isEmpty
      · rw [if_pos hcs] at hc; exact absurd hc (by simp)
      · rw [if_neg hcs] at hc
        by_cases hav : (availableConfigs ids uid configs).isEmpty
        · rw [if_pos hav] at hc; exact absurd hc (by simp)
        · rw [if_neg hav] at hc
          rcases minBySentCount_spec _ c hc with ⟨hmem, hmin⟩
          rcases List.mem_filter.mp hmem with ⟨hmem2, hunder⟩
          rcases List.mem_filter.mp hmem2 with ⟨hmem3, hflt⟩
          rw [Bool.and_eq_true, Bool.and_eq_true] at hflt
          obtain ⟨⟨hid, huidb⟩, hact⟩ := hflt
          refine ⟨hmem3, hid, eq_of_beq huidb, hact, by simpa using hunder, ?_⟩
          intro x hx hxid hxuid hxact hxunder
          refine hmin x (List.mem_filter.mpr ⟨List.mem_filter.mpr ⟨hx, ?_⟩, ?_⟩)
          · rw [Bool.and_eq_true, Bool.and_eq_true]
            refine ⟨⟨hxid, ?_⟩, hxact⟩
            exact beq_iff_eq.mpr hxuid
          · simpa using hxunder
  · intro hall
    rw [get_next_smtp_config]
    by_cases hids : ids.isEmpty
    · rw [if_pos hids]
    · rw [if_neg hids]
      have hav : availableConfigs ids uid configs = [] := by
        rw [availableConfigs, List.filter_eq_nil_iff]
        intro x hx
        rcases List.mem_filter.mp hx with ⟨hmem, hflt⟩
        rw [Bool.and_eq_true, Bool.and_eq_true] at hflt
        obtain ⟨⟨hid, huidb⟩, hact⟩ := hflt
        have := hall x hmem hid (eq_of_beq huidb) hact
        simp only [decide_eq_true_eq]
        omega
      by_cases hcs : (selectedConfigs ids uid configs).isEmpty
      · rw [if_pos hcs]
      · rw [if_neg hcs, if_pos (by rw [hav]; rfl)]

/-- Witness for C6 at concrete inputs: a two-account pool returns the
least-used active account, and a pool whose only account is at its limit
returns `none`. -/
theorem claim_C6_select_account_witness :
    get_next_smtp_config [("a"), ("b")] ("u1")
      [{ id := "a", user_id := "u1", is_active := true,
         daily_sent_count := 5, daily_limit := 300 },
       { id := "b", user_id := "u1", is_active := true,
         daily_sent_count := 2, daily_limit := 300 }] =
      some { id := "b", user_id := "u1", is_active := true,
             daily_sent_count := 2, daily_limit := 300 } ∧
    get_next_smtp_config [("a")] ("u1")
      [{ id := "a", user_id := "u1", is_active := true,
         daily_sent_count := 300, daily_limit := 300 }] = none := by
  refine ⟨by decide, ?_⟩
  exact (claim_C6_select_account [("a")] ("u1") _).2 (by decide)

/-- Claim C10: the pixel endpoint records `opened_at` only on the first
request for a token: records whose `opened_at` is already set are preserved
untouched, a second request after a first one changes nothing, and the 1x1
image is returned on every request. -/
theorem claim_C10_pixel_first_open_only (recs : List TrackingRecord)
    (token : String) (t1 t2 : Nat)
    (huniq : (recs.filter (fun r => r.tracking_pixel_id == token)).length ≤ 1) :
    (track_email_open (track_email_open recs token t1).1 token t2).1 =
      (track_email_open recs token t1).1 ∧
    (∀ r ∈ recs, r.opened_at.isSome → r ∈ (track_email_open recs token t1).1) ∧
    (track_email_open recs token t1).2 = pixelGifBytes ∧
    (track_email_open (track_email_open recs token t1).1 token t2).2 = pixelGifBytes := by
  refine ⟨?_, ?_, rfl, rfl⟩
  · show updateFirst _ _ (updateFirst _ _ recs) = updateFirst _ _ recs
    induction recs with
    | nil => rfl
    | cons x xs ih =>
      by_cases hx : (x.tracking_pixel_id == token && x.opened_at.isNone) = true
      · have hxtok : (x.tracking_pixel_id == token) = true := by
          rw [Bool.and_eq_true] at hx
          exact hx.1
        have hxs : ∀ y ∈ xs, (y.tracking_pixel_id == token && y.opened_at.isNone) = false := by
          intro y hy
          have hlen : (xs.filter (fun r => r.tracking_pixel_id == token)).length = 0 := by
            have : (List.filter (fun r => r.tracking_pixel_id == token) (x :: xs)).length =
                (xs.filter (fun r => r.tracking_pixel_id == token)).length + 1 := by
              simp [List.filter_cons, hxtok]
            omega
          have hytok : (y.tracking_pixel_id == token) = false := by
            by_contra hcon
            have hy2 : (y.tracking_pixel_id == token) = true := by
              cases hb : (y.tracking_pixel_id == token) with
              | false => exact absurd hb hcon
              | true => rfl
            have hymem : y ∈ xs.filter (fun r => r.tracking_pixel_id == token) :=
              List.mem_filter.mpr ⟨hy, hy2⟩
            rw [List.length_eq_zero] at hlen
            rw [hlen] at hymem
            exact absurd hymem (List.not_mem_nil y)
          simp [hytok]
        simp only [updateFirst]
        rw [if_pos hx]
        simp only [updateFirst]
        rw [if_neg (by simp)]
        rw [updateFirst_id _ _ xs hxs]
      · simp only [updateFirst]
        rw [if_neg hx]
        simp only [updateFirst]
        rw [if_neg hx]
        have hsub : (xs.filter (fun r => r.tracking_pixel_id == token)).length ≤ 1 := by
          cases hxtok : (x.tracking_pixel_id == token) with
          | true =>
            have hstep : (List.filter (fun r => r.tracking_pixel_id == token) (x :: xs)).length =
                (xs.filter (fun r => r.tracking_pixel_id == token)).length + 1 := by
              simp [List.filter_cons, hxtok]
            omega
          | false =>
            have hstep : (List.filter (fun r => r.tracking_pixel_id == token) (x :: xs)).length =
                (xs.filter (fun r => r.tracking_pixel_id == token)).length := by
              simp [List.filter_cons, hxtok]
            omega
        rw [ih hsub]
  · intro r hr hopen
    refine mem_updateFirst_of_not _ _ r recs ?_ hr
    have : r.opened_at.isNone = false := by
      cases hh : r.opened_at with
      | none => rw [hh] at hopen; simp [Option.isSome] at hopen
      | some v => simp [Option.isNone]
    simp [this]

/-- Witness for C10 at a concrete input: one record, already-opened record
preserved and repeated request a no-op. -/
theorem claim_C10_pixel_first_open_only_witness :
    (track_email_open (track_email_open
        [{ id := "1", tracking_pixel_id := "tok1" }] ("tok1") 50).1 ("tok1") 60).1 =
      (track_email_open [{ id := "1", tracking_pixel_id := "tok1" }] ("tok1") 50).1 ∧
    (track_email_open [{ id := "1", tracking_pixel_id := "tok1" }] ("tok1") 50).2 =
      pixelGifBytes :=
  ⟨(claim_C10_pixel_first_open_only
      [{ id := "1", tracking_pixel_id := "tok1" }] ("tok1") 50 60 (by decide)).1,
   (claim_C10_pixel_first_open_only
      [{ id := "1", tracking_pixel_id := "tok1" }] ("tok1") 50 60 (by decide)).2.2.1⟩

theorem walkPick_isSome (rand : Nat) (cum : Nat) (v : CampaignVariationM)
    (vs : List CampaignVariationM) :
    (walkPick rand cum (v :: vs)).isSome = true := by
  induction vs generalizing cum v with
  | nil =>
    simp only [walkPick]
    by_cases h : rand ≤ cum + v.weight
    · rw [if_pos h]; rfl
    · rw [if_neg h]; rfl
  | cons w ws ih =>
    simp only [walkPick]
    by_cases h : rand ≤ cum + v.weight
    · rw [if_pos h]; rfl
    · rw [if_neg h]
      exact ih (cum + v.weight) w

theorem eq_nil_of_isEmpty {α : Type} {l : List α} (h : l.isEmpty = true) :
    l = [] := by
  cases l with
  | nil => rfl
  | cons x xs => simp at h

theorem ne_nil_of_isEmpty_false {α : Type} {l : List α}
    (h : l.isEmpty = false) : l ≠ [] := by
  cases l with
  | nil => simp at h
  | cons x xs => simp

theorem foldl_append_only {β : Type} (f : List String → β → List String)
    (hf : ∀ acc x, ∃ k, f acc x = acc ++ k) :
    ∀ (l : List β) (acc : List String), ∃ k, l.foldl f acc = acc ++ k := by
  intro l
  induction l with
  | nil => intro acc; exact ⟨[], by simp⟩
  | cons x xs ih =>
    intro acc
    obtain ⟨k1, hk1⟩ := hf acc x
    obtain ⟨k2, hk2⟩ := ih (f acc x)
    exact ⟨k1 ++ k2, by rw [List.foldl_cons, hk2, hk1, List.append_assoc]⟩

theorem foldl_ne_nil_of_append_only {β : Type} (f : List String → β → List String)
    (hf : ∀ acc x, ∃ k, f acc x = acc ++ k) (l : List β) (acc : List String)
    (hacc : acc ≠ []) : l.foldl f acc ≠ [] := by
  obtain ⟨k, hk⟩ := foldl_append_only f hf l acc
  rw [hk]
  intro hcon
  exact hacc (List.append_eq_nil.mp hcon).1

theorem variationIssuesFold_append (i : Nat) (acc : List String)
    (jv : Nat × CampaignVariationM) :
    ∃ k, variationIssuesFold i acc jv = acc ++ k := by
  simp only [variationIssuesFold]
  by_cases h1 : (stripChars jv.2.subject.data).isEmpty = true
  · rw [if_pos h1]
    by_cases h2 : (stripChars jv.2.content.data).isEmpty = true
    · rw [if_pos h2]
      exact ⟨_, by rw [List.append_assoc]⟩
    · rw [if_neg h2]
      exact ⟨_, rfl⟩
  · rw [if_neg h1]
    by_cases h2 : (stripChars jv.2.content.data).isEmpty = true
    · rw [if_pos h2]
      exact ⟨_, rfl⟩
    · rw [if_neg h2]
      exact ⟨[], by simp⟩

theorem stepIssuesFold_append (acc : List String) (is : Nat × CampaignStepM) :
    ∃ k, stepIssuesFold acc is = acc ++ k := by
  simp only [stepIssuesFold]
  by_cases h : is.2.variations.isEmpty = true
  · rw [if_pos h]
    obtain ⟨k, hk⟩ :=
      foldl_append_only (variationIssuesFold is.1)
        (variationIssuesFold_append is.1) is.2.variations.enum
        (acc ++ [("Step ") ++ toString (is.1 + 1) ++ (" has no email variations")])
    exact ⟨_, by rw [hk, List.append_assoc]⟩
  · rw [if_neg h]
    exact foldl_append_only (variationIssuesFold is.1)
      (variationIssuesFold_append is.1) is.2.variations.enum acc

theorem setup_fold_ne_nil :
    ∀ (l : List (Nat × CampaignStepM)) (acc : List String),
      (∃ p ∈ l, p.2.variations = []) → l.foldl stepIssuesFold acc ≠ [] := by
  intro l
  induction l with
  | nil =>
    intro acc h
    obtain ⟨p, hp, _⟩ := h
    exact absurd hp (List.not_mem_nil p)
  | cons x xs ih =>
    intro acc h
    rw [List.foldl_cons]
    rcases h with ⟨p, hp, hvar⟩
    rcases List.mem_cons.mp hp with rfl | hmem
    · have hne : stepIssuesFold acc p ≠ [] := by
        simp only [stepIssuesFold, hvar]
        simp
      exact foldl_ne_nil_of_append_only stepIssuesFold stepIssuesFold_append
        xs _ hne
    · exact ih (stepIssuesFold acc x) ⟨p, hmem, hvar⟩

theorem scheduleGo_spec (idSrc : Nat → String) (c : FlatCampaign) (now : Nat) :
    ∀ (contacts : List ContactD) (items : List QueueItem) (cur cnt idx : Nat),
      (scheduleGo idSrc c now contacts (items, cur, cnt, idx)).1.length =
        items.length + contacts.length ∧
      ∀ it ∈ (scheduleGo idSrc c now contacts (items, cur, cnt, idx)).1,
        it ∈ items ∨
          (it.status = "pending" ∧ it.attempts = 0 ∧ it.max_attempts = 3) := by
  intro contacts
  induction contacts with
  | nil =>
    intro items cur cnt idx
    exact ⟨by simp [scheduleGo], fun it hit => Or.inl hit⟩
  | cons ct rest ih =>
    intro items cur cnt idx
    simp only [scheduleGo]
    constructor
    · rw [(ih _ _ _ _).1]
      simp only [List.length_append, List.length_cons, List.length_nil]
      omega
    · intro it hit
      rcases (ih _ _ _ _).2 it hit with hin | hprops
      · rcases List.mem_append.mp hin with hl | hr
        · exact Or.inl hl
        · rcases List.mem_singleton.mp hr with rfl
          exact Or.inr ⟨rfl, rfl, rfl⟩
      · exact Or.inr hprops

/-! ## Claim theorems: C2, C3, C5 -/

/-- Counterexample to C2: a pending, due queue item that belongs to a paused
campaign is still selected by the dequeue query — the query filters only on
item status, due time and attempts, never on the owning campaign's status. -/
theorem claim_C2_counterexample :
    ({ id := "camp1", user_id := "u1", status := "paused" } : CampaignM).status
      = "paused" ∧
    ({ id := "q1", campaign_id := "camp1", scheduled_at := 50 } : QueueItem).campaign_id
      = ({ id := "camp1", user_id := "u1", status := "paused" } : CampaignM).id ∧
    ({ id := "q1", campaign_id := "camp1", scheduled_at := 50 } : QueueItem).status
      = "pending" ∧
    ({ id := "q1", campaign_id := "camp1", scheduled_at := 50 } : QueueItem) ∈
      dequeueSelection
        { campaigns := [{ id := "camp1", user_id := "u1", status := "paused" }],
          email_queue := [{ id := "q1", campaign_id := "camp1", scheduled_at := 50 }] }
        100 := by
  refine ⟨rfl, rfl, rfl, ?_⟩
  decide

/-- Claim C2 amended: the dequeue query of `process_queue` does not consult
campaign status at all — pausing a campaign leaves the selected set of due
pending items unchanged, and every selected item is pending, due and below
the attempt cap. Pending items of paused campaigns are therefore still
selected. -/
theorem claim_C2_amended_pause_does_not_stop_dequeue (db : DB)
    (campaign_id user_id : String) (now : Nat) :
    dequeueSelection (pause_campaign db campaign_id user_id) now =
      dequeueSelection db now ∧
    ∀ i ∈ dequeueSelection db now,
      i.status = "pending" ∧ i.scheduled_at ≤ now ∧ i.attempts < 3 := by
  constructor
  · rfl
  · intro i hi
    have hmem : i ∈ db.email_queue.filter (fun i =>
        i.status == "pending" && decide (i.scheduled_at ≤ now) &&
          decide (i.attempts < 3)) :=
      List.take_subset _ _ hi
    rcases List.mem_filter.mp hmem with ⟨_, hp⟩
    rw [Bool.and_eq_true, Bool.and_eq_true] at hp
    obtain ⟨⟨hs, hd⟩, ha⟩ := hp
    exact ⟨eq_of_beq hs, of_decide_eq_true hd, of_decide_eq_true ha⟩

/-- Witness for the amended C2 at a concrete state: pausing the campaign does
not change the dequeue selection. -/
theorem claim_C2_amended_witness :
    dequeueSelection
      (pause_campaign
        { campaigns := [{ id := "camp1", user_id := "u1", status := "sending" }],
          email_queue := [{ id := "q1", campaign_id := "camp1", scheduled_at := 50 }] }
        ("camp1") ("u1"))
      100 =
    dequeueSelection
      { campaigns := [{ id := "camp1", user_id := "u1", status := "sending" }],
        email_queue := [{ id := "q1", campaign_id := "camp1", scheduled_at := 50 }] }
      100 :=
  (claim_C2_amended_pause_does_not_stop_dequeue
    { campaigns := [{ id := "camp1", user_id := "u1", status := "sending" }],
      email_queue := [{ id := "q1", campaign_id := "camp1", scheduled_at := 50 }] }
    ("camp1") ("u1") 100).1

/-- Counterexample to C3: with an empty provider pool (no available sending
account), sending a fresh queued item reschedules it with `attempts`
incremented from 0 to 1 — the no-account outcome does consume an attempt. -/
theorem claim_C3_counterexample :
    (send_queued_email [] 0 (fun _ => { success := true }) (some {})
        { id := "q1", attempts := 0, max_attempts := 3 } 100).attempts = 1 ∧
    (send_queued_email [] 0 (fun _ => { success := true }) (some {})
        { id := "q1", attempts := 0, max_attempts := 3 } 100).scheduled_at = 700 ∧
    (send_queued_email [] 0 (fun _ => { success := true }) (some {})
        { id := "q1", attempts := 0, max_attempts := 3 } 100).error_message =
      some ("No available email providers") := by
  refine ⟨rfl, rfl, rfl⟩

/-- Claim C3 amended: when no sending account is available the item goes
through the same `_retry_or_fail_email` path as a genuine transport failure,
with error "No available email providers": the attempts counter is
incremented with the reschedule and the outcome does count towards
`max_attempts` (three consecutive no-account outcomes fail the item). -/
theorem claim_C3_amended_no_account_consumes_attempt
    (providers : List ProviderM) (last : Nat) (transport : ProviderM → SendResult)
    (contact : ContactD) (item : QueueItem) (now : Nat)
    (hnone : get_next_provider providers last = none) :
    send_queued_email providers last transport (some contact) item now =
      retry_or_fail_email item now ("No available email providers") ∧
    (item.attempts + 1 < item.max_attempts →
      (send_queued_email providers last transport (some contact) item now).attempts =
        item.attempts + 1) ∧
    (item.max_attempts ≤ item.attempts + 1 →
      (send_queued_email providers last transport (some contact) item now).status =
        "failed") := by
  have hmain : send_queued_email providers last transport (some contact) item now =
      retry_or_fail_email item now ("No available email providers") := by
    simp only [send_queued_email, smtp_manager_send_email, hnone]
    rfl
  refine ⟨hmain, ?_, ?_⟩
  · intro h
    rw [hmain]
    simp only [retry_or_fail_email]
    rw [if_neg (by omega)]
  · intro h
    rw [hmain]
    simp only [retry_or_fail_email]
    rw [if_pos (by omega)]

/-- Witness for the amended C3 at concrete inputs: empty provider pool, fresh
item. -/
theorem claim_C3_amended_witness :
    send_queued_email [] 0 (fun _ => { success := true }) (some {})
        { id := "q1", attempts := 0, max_attempts := 3 } 100 =
      retry_or_fail_email { id := "q1", attempts := 0, max_attempts := 3 } 100
        ("No available email providers") ∧
    (send_queued_email [] 0 (fun _ => { success := true }) (some {})
        { id := "q1", attempts := 2, max_attempts := 3 } 100).status = "failed" :=
  ⟨(claim_C3_amended_no_account_consumes_attempt [] 0 (fun _ => { success := true })
      {} { id := "q1", attempts := 0, max_attempts := 3 } 100 rfl).1,
   (claim_C3_amended_no_account_consumes_attempt [] 0 (fun _ => { success := true })
      {} { id := "q1", attempts := 2, max_attempts := 3 } 100 rfl).2.2 (by decide)⟩

/-- Claim C5: for a step with a nonempty variation list the selector's result
is a variation (`isSome`) and is independent of the incoming state of the
module-global generator — the draw is reseeded from the injected hash of
`(step id, contact id)` alone, so two calls (with any interleaving activity
on the generator, and no dependence on wall-clock time) return the same
variation. -/
theorem claim_C5_variation_deterministic {G : Type} (seedFn : Int → G)
    (randintFn : G → Nat → Nat → Nat × G) (strHash : String → Int)
    (step : CampaignStepM) (contact_id : String) (g g' : G)
    (hne : step.variations ≠ []) :
    (select_campaign_variation seedFn randintFn strHash step contact_id g).1 =
      (select_campaign_variation seedFn randintFn strHash step contact_id g').1 ∧
    (select_campaign_variation seedFn randintFn strHash step contact_id g).1.isSome
      = true := by
  cases hv : step.variations with
  | nil => exact absurd hv hne
  | cons v vs =>
    constructor
    · simp only [select_campaign_variation, hv]
    · simp only [select_campaign_variation, hv]
      by_cases ht : ((v :: vs).map (fun x => x.weight)).sum = 0
      · rw [if_pos ht]; rfl
      · rw [if_neg ht]
        exact walkPick_isSome _ 0 v vs

/-- Witness for C5 at concrete inputs: a two-variation step, two different
generator states. -/
theorem claim_C5_variation_deterministic_witness :
    (select_campaign_variation (fun z => z.toNat) (fun g lo _ => (lo, g))
        (fun s => (s.length : Int))
        { id := "s1", variations := [{ id := "v1", weight := 70 },
                                     { id := "v2", weight := 30 }] }
        ("c1") (0 : Nat)).1 =
      (select_campaign_variation (fun z => z.toNat) (fun g lo _ => (lo, g))
        (fun s => (s.length : Int))
        { id := "s1", variations := [{ id := "v1", weight := 70 },
                                     { id := "v2", weight := 30 }] }
        ("c1") (99 : Nat)).1 :=
  (claim_C5_variation_deterministic (fun z => z.toNat) (fun g lo _ => (lo, g))
    (fun s => (s.length : Int))
    { id := "s1", variations := [{ id := "v1", weight := 70 },
                                 { id := "v2", weight := 30 }] }
    ("c1") 0 99 (by decide)).1

/-- Counterexample to C1: a campaign with one contact and one step that
passes validation. The claim requires the start request to persist exactly
one QueueItem (one per contact/step pair) and mark the campaign `scheduled`
or `sending`; the handler returns with the queue untouched (zero items
persisted, not one) — it only flips the status to `sending`. -/
theorem claim_C1_counterexample :
    start_campaign campaignC1 [{ id := "ct1" }] [{ id := "a", user_id := "u1" }] [] =
      .ok ({ campaignC1 with status := "sending" }, []) ∧
    campaignC1.contact_ids.length * campaignC1.steps.length = 1 ∧
    ([] : List QueueItem).length = 0 := by
  refine ⟨?_, by decide, rfl⟩
  have hval : campaignIsValid campaignC1 [{ id := "ct1" }]
      [{ id := "a", user_id := "u1" }] = true := by decide
  simp only [start_campaign, hval, if_true]

/-- Claim C1 amended: the start endpoint is validate-and-set-status only —
on a campaign that passes validation it sets the status to `sending` and
leaves the queue untouched. QueueItems are created only by the separate
`CampaignSender.schedule_campaign` path, which persists exactly one item per
resolved contact (the flat campaign there has no steps, so there is no
per-step fan-out), each with `status = pending` and `attempts = 0`, and
marks the campaign `scheduled`. -/
theorem claim_C1_amended_start_and_schedule
    (campaign : CampaignM) (contacts : List ContactD) (configs : List SMTPConfigM)
    (queue : List QueueItem) (fc : FlatCampaign) (idSrc : Nat → String)
    (fcontacts : List ContactD) (now : Nat) :
    (campaignIsValid campaign contacts configs = true →
      start_campaign campaign contacts configs queue =
        .ok ({ campaign with status := "sending" }, queue)) ∧
    (fc.contact_ids ≠ [] →
      ∃ items, schedule_campaign idSrc fc fcontacts now = .ok (items, ("scheduled")) ∧
        items.length = fcontacts.length ∧
        ∀ it ∈ items, it.status = "pending" ∧ it.attempts = 0 ∧
          it.max_attempts = 3) := by
  constructor
  · intro hval
    simp only [start_campaign, hval, if_true]
  · intro hne
    have hids : fc.contact_ids.isEmpty = false := by
      cases h : fc.contact_ids with
      | nil => exact absurd h hne
      | cons a as => rfl
    refine ⟨(scheduleGo idSrc fc now fcontacts ([], now, 0, 0)).1, ?_, ?_, ?_⟩
    · simp only [schedule_campaign, hids, Bool.false_eq_true, if_false]
    · have := (scheduleGo_spec idSrc fc now fcontacts [] now 0 0).1
      simpa using this
    · intro it hit
      rcases (scheduleGo_spec idSrc fc now fcontacts [] now 0 0).2 it hit with hin | hp
      · exact absurd hin (List.not_mem_nil it)
      · exact hp

/-- Witness for the amended C1 at concrete inputs: the start endpoint on the
valid one-contact campaign, and the scheduler on a one-contact flat
campaign. -/
theorem claim_C1_amended_witness :
    start_campaign campaignC1 [{ id := "ct1" }] [{ id := "a", user_id := "u1" }] [] =
      .ok ({ campaignC1 with status := "sending" }, []) ∧
    (∃ items, schedule_campaign (fun n => toString n)
        { id := "c1", subject := "Hello", content := "World",
          contact_ids := ["ct1"] } [{ id := "ct1" }] 1000 =
          .ok (items, ("scheduled")) ∧
      items.length = ([({ id := "ct1" } : ContactD)]).length ∧
      ∀ it ∈ items, it.status = "pending" ∧ it.attempts = 0 ∧
        it.max_attempts = 3) :=
  ⟨(claim_C1_amended_start_and_schedule campaignC1 [{ id := "ct1" }]
      [{ id := "a", user_id := "u1" }] []
      { id := "c1", subject := "Hello", content := "World",
        contact_ids := ["ct1"] } (fun n => toString n) [{ id := "ct1" }] 1000).1
      (by decide),
   (claim_C1_amended_start_and_schedule campaignC1 [{ id := "ct1" }]
      [{ id := "a", user_id := "u1" }] []
      { id := "c1", subject := "Hello", content := "World",
        contact_ids := ["ct1"] } (fun n => toString n) [{ id := "ct1" }] 1000).2
      (by decide)⟩

/-- Counterexample to C7: a campaign with zero contacts (and hence zero
resolved contacts) passes validation and is started — the validation never
examines the contact count, so "at least one contact" is not enforced. -/
theorem claim_C7_counterexample :
    campaignC7.contact_ids = [] ∧
    campaignIsValid campaignC7 [] [{ id := "a", user_id := "u1" }] = true ∧
    start_campaign campaignC7 [] [{ id := "a", user_id := "u1" }] [] =
      .ok ({ campaignC7 with status := "sending" }, []) := by
  have hval : campaignIsValid campaignC7 [] [{ id := "a", user_id := "u1" }]
      = true := by decide
  refine ⟨rfl, hval, ?_⟩
  simp only [start_campaign, hval, if_true]

/-- Claim C7 amended: a campaign-start request is rejected with a validation
error whenever validation fails, and passing validation requires at least
one step, at least one variation in every step, and at least one active
selected sending account of the user — but not at least one contact (a
zero-contact campaign passes). -/
theorem claim_C7_amended_validation (campaign : CampaignM)
    (contacts : List ContactD) (configs : List SMTPConfigM)
    (queue : List QueueItem) :
    (campaignIsValid campaign contacts configs = false →
      start_campaign campaign contacts configs queue =
        .error ("Campaign validation failed")) ∧
    (campaignIsValid campaign contacts configs = true →
      campaign.steps ≠ [] ∧
      (∀ step ∈ campaign.steps, step.variations ≠ []) ∧
      ∃ cfg ∈ configs, campaign.smtp_config_ids.contains cfg.id = true ∧
        cfg.user_id = campaign.user_id ∧ cfg.is_active = true) := by
  constructor
  · intro hval
    simp only [start_campaign, hval, Bool.false_eq_true, if_false]
  · intro hval
    rw [campaignIsValid, Bool.and_eq_true, Bool.and_eq_true] at hval
    obtain ⟨⟨_, hsmtp⟩, hsetup⟩ := hval
    have hsetup2 : setupIssues campaign = [] := eq_nil_of_isEmpty hsetup
    have hsmtp2 : smtpIssues campaign configs = [] := eq_nil_of_isEmpty hsmtp
    have hsteps : campaign.steps ≠ [] := by
      intro hcon
      rw [setupIssues, if_pos (by rw [hcon]; rfl)] at hsetup2
      exact absurd hsetup2 (by simp)
    refine ⟨hsteps, ?_, ?_⟩
    · intro step hstep hvars
      have hstepsE : campaign.steps.isEmpty = false := by
        cases h : campaign.steps with
        | nil => exact absurd h hsteps
        | cons a as => rfl
      rw [setupIssues, if_neg (by rw [hstepsE]; exact Bool.false_ne_true)] at hsetup2
      have hmem : ∃ i, (i, step) ∈ campaign.steps.enum := by
        rw [List.mem_iff_getElem?] at hstep
        obtain ⟨i, hi⟩ := hstep
        exact ⟨i, List.mk_mem_enum_iff_getElem?.mpr hi⟩
      obtain ⟨i, hi⟩ := hmem
      exact setup_fold_ne_nil campaign.steps.enum [] ⟨(i, step), hi, hvars⟩ hsetup2
    · by_cases hids : campaign.smtp_config_ids.isEmpty
      · rw [smtpIssues, if_pos hids] at hsmtp2
        exact absurd hsmtp2 (by simp)
      · rw [smtpIssues, if_neg hids] at hsmtp2
        by_cases hcnt : (configs.filter (fun c =>
            campaign.smtp_config_ids.contains c.id &&
              c.user_id == campaign.user_id && c.is_active)).length = 0
        · rw [if_pos hcnt] at hsmtp2
          exact absurd hsmtp2 (by simp)
        · cases hf : configs.filter (fun c =>
              campaign.smtp_config_ids.contains c.id &&
                c.user_id == campaign.user_id && c.is_active) with
          | nil => exact absurd (by rw [hf]; rfl) hcnt
          | cons cfg rest =>
            have hcfg : cfg ∈ configs.filter (fun c =>
                campaign.smtp_config_ids.contains c.id &&
                  c.user_id == campaign.user_id && c.is_active) := by
              rw [hf]
              exact List.mem_cons_self cfg rest
            rcases List.mem_filter.mp hcfg with ⟨hmem, hcond⟩
            rw [Bool.and_eq_true, Bool.and_eq_true] at hcond
            obtain ⟨⟨hid, huid⟩, hact⟩ := hcond
            exact ⟨cfg, hmem, hid, eq_of_beq huid, hact⟩

/-- Witness for the amended C7 at concrete inputs: a step-less campaign is
rejected, and the valid campaign of C1's scenario yields the necessary
conditions. -/
theorem claim_C7_amended_validation_witness :
    start_campaign { id := "cx", user_id := "u1" } [] [] [] =
      .error ("Campaign validation failed") ∧
    ({ id := "c9", user_id := "u1", name := "camp9",
       steps := [{ id := "s9", sequence_order := 1,
                   variations := [{ id := "v9", name := "A", subject := "Hello",
                                    content := "World", weight := 100 }] }],
       contact_ids := ["ct1"], smtp_config_ids := ["a"] } : CampaignM).steps ≠ [] :=
  ⟨(claim_C7_amended_validation { id := "cx", user_id := "u1" } [] [] []).1
      (by decide),
   ((claim_C7_amended_validation
      { id := "c9", user_id := "u1", name := "camp9",
        steps := [{ id := "s9", sequence_order := 1,
                    variations := [{ id := "v9", name := "A", subject := "Hello",
                                     content := "World", weight := 100 }] }],
        contact_ids := ["ct1"], smtp_config_ids := ["a"] }
      [] [{ id := "a", user_id := "u1" }] []).2 (by decide)).1⟩

/-- Counterexample to C8: the template consisting of one token whose name is
padded with spaces. Extraction strips, so `extractVariables` yields
`first_name`, which the contact supplies; but rendering looks the name up
without stripping, so the token survives into the output — the rendered
result still contains a double-brace token even though every extracted name
was supplied. -/
theorem claim_C8_counterexample :
    extract_variables_from_template ("\x7b\x7b first_name \x7d\x7d") =
      [("first_name")] ∧
    lookupVar { first_name := "Ana", last_name := "Lee" } [] ("first_name") =
      some ("Ana") ∧
    hasTok (personalize_template ("\x7b\x7b first_name \x7d\x7d")
      { first_name := "Ana", last_name := "Lee" } []).data = true := by
  refine ⟨by decide, by decide, by decide⟩

/-- Claim C8 amended: for a template interleaving brace-free literal text
with tokens whose names are nonempty, free of closing braces and carry no
surrounding whitespace, rendering with values (themselves brace-free) for
every name in `extractVariables(t)` produces an output with no double-brace
token. Names are matched case-insensitively (lower-cased on both sides), but
rendering does not strip whitespace around the name the way extraction does,
and an unsupplied token is re-emitted with its name lower-cased rather than
fully verbatim. -/
theorem claim_C8_amended_round_trip (pieces : List Piece) (contact : ContactD)
    (custom : List (String × String))
    (hw : ∀ p ∈ pieces, wfPiece p)
    (hsup : ∀ name ∈ extract_variables_from_template
        (String.mk (flattenPieces pieces)),
      ∃ v, lookupVar contact custom name = some v ∧ braceFreeL v.data) :
    hasTok (personalize_template (String.mk (flattenPieces pieces))
      contact custom).data = false := by
  have hdata : (String.mk (flattenPieces pieces)).data = flattenPieces pieces := rfl
  have hsup2 : ∀ n, Piece.tok n ∈ pieces →
      ∃ v, lookupVar contact custom (String.mk (lowerChars n)) = some v ∧
        braceFreeL v.data := by
    intro n hn
    obtain ⟨hne, hnb, hstrip⟩ := hw (.tok n) hn
    refine hsup (String.mk (lowerChars n)) ?_
    simp only [extract_variables_from_template]
    rw [collectRuns_flatten pieces hw _ (le_refl _)]
    refine List.mem_dedup.mpr ?_
    refine List.mem_map.mpr ⟨n, mem_tokNames hn, ?_⟩
    rw [hstrip]
  have hbf := substFuel_flatten_braceFree contact custom pieces hw hsup2
    (flattenPieces pieces).length (le_refl _)
  have hbf2 : braceFreeL (personalize_template (String.mk (flattenPieces pieces))
      contact custom).data :=
    collapseAux_braceFree _ false hbf
  exact hasTok_of_braceFree _ hbf2

/-- Witness for the amended C8 at a concrete template
`Hi <token first_name>` with contact first name `Ana`. -/
theorem claim_C8_amended_round_trip_witness :
    hasTok (personalize_template
      (String.mk (flattenPieces
        [Piece.lit ("Hi ").data, Piece.tok ("first_name").data]))
      { first_name := "Ana" } []).data = false := by
  refine claim_C8_amended_round_trip
    [Piece.lit ("Hi ").data, Piece.tok ("first_name").data]
    { first_name := "Ana" } [] (by decide) ?_
  intro name hname
  have hex : extract_variables_from_template
      (String.mk (flattenPieces
        [Piece.lit ("Hi ").data, Piece.tok ("first_name").data])) =
      [("first_name")] := by decide
  rw [hex] at hname
  have hn : name = ("first_name") := List.mem_singleton.mp hname
  rw [hn]
  exact ⟨("Ana"), by decide, by decide⟩

/-- Claim C9: `personalize_template` always returns a whitespace-normal
string (every maximal whitespace run collapsed to one space), and on a
token-free template containing a newline or two consecutive spaces the
output differs from the input — rendering is not pure token substitution. -/
theorem claim_C9_whitespace_collapse (t : String) (contact : ContactD)
    (custom : List (String × String)) :
    wsNormal (personalize_template t contact custom).data = true ∧
    (hasTok t.data = false →
      (('\n') ∈ t.data ∨ hasAdjSpaces t.data = true) →
      personalize_template t contact custom ≠ t) := by
  constructor
  · exact wsNormal_collapseAux _ false
  · intro hnt hbad heq
    have hdata : collapseWs (substFuel contact custom t.data.length t.data) =
        t.data := congrArg String.data heq
    rw [substFuel_id_of_noTok contact custom t.data.length t.data hnt] at hdata
    rcases hbad with hnl | hadj
    · have hnot : ('\n') ∉ collapseWs t.data :=
        newline_not_mem_collapseAux t.data false
      rw [hdata] at hnot
      exact hnot hnl
    · have h1 : wsNormal t.data = false := wsNormal_false_of_adjSpaces t.data hadj
      have h2 : wsNormal (collapseWs t.data) = true := wsNormal_collapseAux t.data false
      rw [hdata, h1] at h2
      exact Bool.false_ne_true h2

/-- Witness for C9 at a concrete input: a token-free template with two
consecutive spaces is changed by rendering. -/
theorem claim_C9_whitespace_collapse_witness :
    personalize_template ("a  b") {} [] ≠ ("a  b") :=
  (claim_C9_whitespace_collapse ("a  b") {} []).2 (by decide) (Or.inr (by decide))

end EmailAutomation
